import Mathlib

/-!
Verification of the tar1090 heatmap binary decoder and ingest pipeline
(`process_adsb_data.py`, function `parse_binary_file`).

The file contents are modelled as the list of 32-bit little-endian words
(`np.fromfile(..., dtype=np.int32)`); a word is carried as a `Nat` and the
signed (`points`), unsigned (`pointsU`) and byte (`pointsU8`) views of the
same bytes are recovered by `toI32`, `u32` and `byteOfWord`.  Timestamps and
coordinates are modelled over `ℚ`.  Out-of-range numpy indexing raises, which
the source catches per file; this is modelled with `Except Unit`.
-/

namespace Adsb

/-- The unsigned 32-bit view of a word (`points.view(np.uint32)`). -/
def u32 (w : Nat) : Nat := w % 4294967296

/-- The signed 32-bit view of a word (the `np.int32` array `points`). -/
def toI32 (w : Nat) : Int :=
  if u32 w < 2147483648 then (u32 w : Int) else (u32 w : Int) - 4294967296

/-- Byte `j` (little-endian, `0 ≤ j < 4`) of a word: the `pointsU8` view. -/
def byteOfWord (w j : Nat) : Nat := u32 w / 256 ^ j % 256

/-- One lowercase hexadecimal digit, as produced by Python `"%x"`. -/
def hexDigitChar (n : Nat) : Char :=
  if n < 10 then Char.ofNat (48 + n) else Char.ofNat (87 + n)

/-- `hex = f"{points[i] & 16777215:06x}"`, prefixed with `"~"` when bit 24 of
`points[i]` is set.  The masked value is below `16^6`, so the rendering is the
six hex digits of the value, leading zeros included. -/
def hexStr (w : Nat) : String :=
  let n := u32 w % 16777216
  let s := String.mk [hexDigitChar (n / 1048576 % 16), hexDigitChar (n / 65536 % 16),
    hexDigitChar (n / 4096 % 16), hexDigitChar (n / 256 % 16),
    hexDigitChar (n / 16 % 16), hexDigitChar (n % 16)]
  if u32 w / 16777216 % 2 = 1 then "~" ++ s else s

/-- One decimal digit character, as produced by Python `"%d"`. -/
def decDigitChar (n : Nat) : Char := Char.ofNat (48 + n)

/-- Decimal digits of `n` (most significant first); the first argument is
fuel, which any value above `n` makes irrelevant. -/
def decDigitsCore : Nat → Nat → List Char
  | 0, _ => []
  | fuel + 1, n =>
    if n < 10 then [decDigitChar n]
    else decDigitsCore fuel (n / 10) ++ [decDigitChar (n % 10)]

/-- Decimal digit characters of `n`, most significant first.  Ten digits of
fuel suffice for every value below `10^10`, and all squawk inputs are 16-bit
values. -/
def decDigitsOf (n : Nat) : List Char := decDigitsCore 10 n

/-- `squawk = f"{lat & 65535:04d}"`: the decimal rendering of `n`, left-padded
with zeros to a minimum width of 4 characters. -/
def squawkStr (n : Nat) : String :=
  let ds := decDigitsOf n
  String.mk (List.replicate (4 - ds.length) '0' ++ ds)

/-- `alt = points[i+3] & 65535`, then `alt |= -65536` when bit 15 is set
(bit 15 of a value below `2^16` is set exactly when `32768 ≤` it, and ORing
such a value with `-65536` subtracts `65536`). -/
def altRawOf (w : Nat) : Int :=
  if 32768 ≤ u32 w % 65536 then ((u32 w % 65536 : Nat) : Int) - 65536
  else ((u32 w % 65536 : Nat) : Int)

/-- `alt = -123 if alt == -123 else alt * 25`. -/
def altOf (w : Nat) : Int :=
  if altRawOf w = -123 then -123 else altRawOf w * 25

/-- `gs = points[i+3] >> 16`: arithmetic right shift of the signed word,
i.e. flooring division by `2^16`. -/
def gsRawOf (w : Nat) : Int := Int.fdiv (toI32 w) 65536

/-- `gs = None if gs == -1 else gs / 10`. -/
def gsOf (w : Nat) : Option ℚ :=
  if gsRawOf w = -1 then none else some ((gsRawOf w : ℚ) / 10)

/-- `type_num = (pointsU[i] >> 27) & 31` (masking the low 5 bits is reducing
modulo 32). -/
def typeOf (w : Nat) : Nat := u32 w / 134217728 % 32

/-- An emitted aircraft record (the dictionary appended to `data`). -/
structure AC where
  t : ℚ
  hex : String
  flight : Option String
  squawk : Option String
  lat : ℚ
  lon : ℚ
  alt : Int
  gs : Option ℚ
  type : Nat
deriving DecidableEq

/-- The mutable state of one `parse_binary_file` run: the per-frame aircraft
state table `acinfo`, the per-file down-sampler map `last_seen`, and the
accumulated output `data`. -/
structure PState where
  acinfo : List (String × (Option String × String))
  lastSeen : List (String × ℚ)
  data : List AC
deriving DecidableEq

/-- Python `dict` lookup over an association list whose most recent binding
comes first. -/
def alookup {β : Type} (k : String) : List (String × β) → Option β
  | [] => none
  | (k', v) :: rest => if k' = k then some v else alookup k rest

/-- The down-sample gate:
`(hex in last_seen and now - last_seen[hex] >= 60) or not hex in last_seen`. -/
def gateEmit (lastSeen : List (String × ℚ)) (hex : String) (now : ℚ) : Bool :=
  match alookup hex lastSeen with
  | some t0 => decide (60 ≤ now - t0)
  | none => true

/-- Bounds-checked word read (`points[i]` / `pointsU[i]`); numpy raises on an
out-of-range index. -/
def readW (ws : List Nat) (i : Nat) : Except Unit Nat :=
  if h : i < ws.length then .ok (ws.get ⟨i, h⟩) else .error ()

/-- The call-sign read: 8 consecutive bytes of `pointsU8` starting at byte
index `4*(i+2)`, each turned into a character by `chr`.  The reads are in
increasing order of index, so the loop raises exactly when the last byte is
out of range. -/
def readFlight (ws : List Nat) (i : Nat) : Except Unit String :=
  if 4 * (i + 2) + 7 < 4 * ws.length then
    .ok (String.mk ((List.range 8).map fun j =>
      Char.ofNat (byteOfWord (ws.getD ((4 * (i + 2) + j) / 4) 0) ((4 * (i + 2) + j) % 4))))
  else .error ()

/-- Processing of the single 16-byte record starting at word index `i`:
the body of the inner `while` loop of `parse_binary_file`. -/
def stepRec (ws : List Nat) (i : Nat) (now : ℚ) (st : PState) : Except Unit PState :=
  match readW ws i, readW ws (i + 1), readW ws (i + 2) with
  | .ok w0, .ok w1, .ok w2 =>
    let hex := hexStr w0
    if 1073741824 < toI32 w1 then
      -- IdentityRecord: update the state table, emit nothing
      if byteOfWord w2 0 ≠ 0 then
        match readFlight ws i with
        | .ok f => .ok { st with acinfo := (hex, (some f, squawkStr (u32 w1 % 65536))) :: st.acinfo }
        | .error e => .error e
      else
        .ok { st with acinfo := (hex, (none, squawkStr (u32 w1 % 65536))) :: st.acinfo }
    else
      let lat : ℚ := (toI32 w1 : ℚ) / 1000000
      let lon : ℚ := (toI32 w2 : ℚ) / 1000000
      let fs : Option String × Option String :=
        match alookup hex st.acinfo with
        | some p => (p.1, some p.2)
        | none => (none, none)
      if -90 < lat ∧ lat < 90 ∧ -180 < lon ∧ lon < 180 then
        match readW ws (i + 3) with
        | .ok w3 =>
          let ac : AC := { t := now, hex := hex, flight := fs.1, squawk := fs.2,
                           lat := lat, lon := lon, alt := altOf w3, gs := gsOf w3,
                           type := typeOf w0 }
          if gateEmit st.lastSeen hex now then
            .ok { st with lastSeen := (hex, now) :: st.lastSeen, data := st.data ++ [ac] }
          else .ok st
        | .error e => .error e
      else .ok st
  | _, _, _ => .error ()

/-- The inner `while i < len(points) and 243235997 != points[i]` loop; the
fuel argument only bounds the number of iterations, which is at most
`len(points)` since `i` grows by 4 each time. -/
def recLoop (ws : List Nat) (now : ℚ) : Nat → Nat → PState → Except Unit PState
  | 0, _, st => .ok st
  | fuel + 1, i, st =>
    if h : i < ws.length then
      if toI32 (ws.get ⟨i, h⟩) = 243235997 then .ok st
      else
        match stepRec ws i now st with
        | .ok st' => recLoop ws now fuel (i + 4) st'
        | .error e => .error e
    else .ok st

/-- The outer loop over `slices`: each frame resets `acinfo` to the empty
dict, computes the frame timestamp from header words `s+1` and `s+2`, and
runs the record loop from word `s+4`. -/
def frameLoop (ws : List Nat) : List Nat → PState → Except Unit PState
  | [], st => .ok st
  | s :: rest, st =>
    match readW ws (s + 1), readW ws (s + 2) with
    | .ok w1, .ok w2 =>
      let now : ℚ := (u32 w2 : ℚ) / 1000 + 4294967.296 * (u32 w1 : ℚ)
      match recLoop ws now (ws.length + 1) (s + 4) { st with acinfo := [] } with
      | .ok st' => frameLoop ws rest st'
      | .error e => .error e
    | _, _ => .error ()

/-- `slices`: the word indices `i ∈ range(0, len(points), 4)` with
`points[i] == 243235997`. -/
def slicesOf (ws : List Nat) : List Nat :=
  (List.range ws.length).filter fun i => i % 4 == 0 && toI32 (ws.getD i 0) == 243235997

/-- The body of `parse_binary_file` inside its `try`: empty files and files
without a sentinel return no records; otherwise the frames are processed in
order and any numpy indexing error escapes as `.error`. -/
def parseCore (ws : List Nat) : Except Unit (List AC) :=
  if ws.length = 0 then .ok []
  else if slicesOf ws = [] then .ok []
  else
    match frameLoop ws (slicesOf ws) ⟨[], [], []⟩ with
    | .ok st => .ok st.data
    | .error _ => .error ()

/-- `parse_binary_file`: a missing file (`none`) returns `[]`, and the
`except` handler turns any mid-parse error into `[]` as well. -/
def parse_binary_file (file : Option (List Nat)) : List AC :=
  match file with
  | none => []
  | some ws =>
    match parseCore ws with
    | .ok d => d
    | .error _ => []

/-- The shape every record appended to `data` has: coordinates strictly
inside the valid window, and altitude, ground speed and type each decoded
from some 32-bit word by the corresponding field decoder. -/
def EmittedShape (r : AC) : Prop :=
  -90 < r.lat ∧ r.lat < 90 ∧ -180 < r.lon ∧ r.lon < 180 ∧
  (∃ w3, w3 < 4294967296 ∧ r.alt = altOf w3 ∧ r.gs = gsOf w3) ∧
  (∃ w0, w0 < 4294967296 ∧ r.type = typeOf w0)

theorem u32_lt (w : Nat) : u32 w < 4294967296 := Nat.mod_lt _ (by norm_num)

theorem u32_u32 (w : Nat) : u32 (u32 w) = u32 w := by
  unfold u32; omega

theorem toI32_u32 (w : Nat) : toI32 (u32 w) = toI32 w := by
  unfold toI32; rw [u32_u32]

theorem altOf_u32 (w : Nat) : altOf (u32 w) = altOf w := by
  unfold altOf altRawOf; rw [u32_u32]

theorem gsOf_u32 (w : Nat) : gsOf (u32 w) = gsOf w := by
  unfold gsOf gsRawOf; rw [toI32_u32]

theorem typeOf_u32 (w : Nat) : typeOf (u32 w) = typeOf w := by
  unfold typeOf; rw [u32_u32]

/-- Characterization of one record step: either the down-sampler map and the
output are both untouched (identity records, positions out of range, and
positions failing the 60-second gate), or exactly one record passing the
coordinate window and the gate is appended and its aircraft/timestamp pair
is recorded in the down-sampler map. -/
theorem stepRec_spec {ws : List Nat} {i : Nat} {now : ℚ} {st st' : PState}
    (h : stepRec ws i now st = .ok st') :
    (st'.lastSeen = st.lastSeen ∧ st'.data = st.data) ∨
    ∃ ac : AC, ac.t = now ∧ EmittedShape ac ∧
      gateEmit st.lastSeen ac.hex now = true ∧
      st'.lastSeen = (ac.hex, now) :: st.lastSeen ∧ st'.data = st.data ++ [ac] := by
  unfold stepRec at h
  split at h
  case h_2 => exact absurd h (by simp)
  case h_1 =>
    rename_i w0 w1 w2 hr0 hr1 hr2
    dsimp only at h
    split at h
    · -- IdentityRecord
      split at h
      · split at h
        · left; cases h; exact ⟨rfl, rfl⟩
        · exact absurd h (by simp)
      · left; cases h; exact ⟨rfl, rfl⟩
    · -- PositionRecord
      split at h
      case isTrue hrange =>
        split at h
        case h_1 w3 hw3 =>
          split at h
          case isTrue hgate =>
            right
            cases h
            refine ⟨_, rfl, ?_, hgate, rfl, rfl⟩
            refine ⟨hrange.1, hrange.2.1, hrange.2.2.1, hrange.2.2.2,
              ⟨u32 w3, u32_lt w3, ?_, ?_⟩, ⟨u32 w0, u32_lt w0, ?_⟩⟩ <;>
              simp [altOf_u32, gsOf_u32, typeOf_u32]
          case isFalse => left; cases h; exact ⟨rfl, rfl⟩
        case h_2 => exact absurd h (by simp)
      case isFalse => left; cases h; exact ⟨rfl, rfl⟩

/-- Any property preserved by `stepRec` is preserved by the inner record
loop. -/
theorem recLoop_inv {ws : List Nat} {now : ℚ} (P : PState → Prop)
    (hstep : ∀ i st st', stepRec ws i now st = .ok st' → P st → P st') :
    ∀ fuel i st st', recLoop ws now fuel i st = .ok st' → P st → P st' := by
  intro fuel
  induction fuel with
  | zero => intro i st st' h hst; cases h; exact hst
  | succ fuel ih =>
    intro i st st' h hst
    unfold recLoop at h
    split at h
    · split at h
      · cases h; exact hst
      · split at h
        case h_1 st1 hst1 => exact ih _ _ _ h (hstep _ _ _ hst1 hst)
        case h_2 => exact absurd h (by simp)
    · cases h; exact hst

/-- Any property preserved by `stepRec` (for every frame timestamp) and
insensitive to clearing the state table is preserved by the frame loop. -/
theorem frameLoop_inv {ws : List Nat} (P : PState → Prop)
    (hreset : ∀ st, P st → P { st with acinfo := [] })
    (hstep : ∀ now i st st', stepRec ws i now st = .ok st' → P st → P st') :
    ∀ ss st st', frameLoop ws ss st = .ok st' → P st → P st' := by
  intro ss
  induction ss with
  | nil => intro st st' h hst; cases h; exact hst
  | cons s rest ih =>
    intro st st' h hst
    unfold frameLoop at h
    split at h
    case h_2 => exact absurd h (by simp)
    case h_1 w1 w2 hw1 hw2 =>
      dsimp only at h
      split at h
      case h_1 st1 hst1 =>
        exact ih _ _ h (recLoop_inv P (fun i a b hab ha => hstep _ i a b hab ha)
          _ _ _ _ hst1 (hreset st hst))
      case h_2 => exact absurd h (by simp)

/-- Any property of the `(last_seen, data)` pair that holds of the empty
state and is preserved by `stepRec` holds at the end of every run, and hence
of the returned record list (the failure paths all return `[]`). -/
theorem parse_inv (P : PState → Prop)
    (hacinfo : ∀ a a' ls d, P ⟨a, ls, d⟩ → P ⟨a', ls, d⟩)
    (hstep : ∀ ws now i st st', stepRec ws i now st = .ok st' → P st → P st')
    (hinit : P ⟨[], [], []⟩) (file : Option (List Nat)) :
    ∃ st : PState, st.data = parse_binary_file file ∧ P st := by
  match file with
  | none => exact ⟨⟨[], [], []⟩, rfl, hinit⟩
  | some ws =>
    have hrw : parse_binary_file (some ws) =
        match parseCore ws with | .ok d => d | .error _ => [] := rfl
    rw [hrw]
    cases hpc : parseCore ws with
    | error e => exact ⟨⟨[], [], []⟩, rfl, hinit⟩
    | ok d =>
      unfold parseCore at hpc
      split at hpc
      · cases hpc; exact ⟨⟨[], [], []⟩, rfl, hinit⟩
      · split at hpc
        · cases hpc; exact ⟨⟨[], [], []⟩, rfl, hinit⟩
        · split at hpc
          case h_1 st hst =>
            cases hpc
            refine ⟨st, rfl, ?_⟩
            refine frameLoop_inv P ?_ (fun now i a b hab ha => hstep ws now i a b hab ha)
              _ _ _ hst hinit
            intro a ha
            exact hacinfo a.acinfo [] a.lastSeen a.data (by cases a; exact ha)
          case h_2 => exact absurd hpc (by simp)

/-- Every record returned by `parse_binary_file` has the emitted shape. -/
theorem parse_shape (file : Option (List Nat)) :
    ∀ r ∈ parse_binary_file file, EmittedShape r := by
  obtain ⟨st, hdata, hP⟩ := parse_inv (fun st => ∀ r ∈ st.data, EmittedShape r)
    (fun a a' ls d h => h)
    (fun ws now i st st' hstep hst => by
      rcases stepRec_spec hstep with ⟨-, hd⟩ | ⟨ac, -, hsh, -, -, hd⟩
      · rw [hd]; exact hst
      · rw [hd]
        intro r hr
        rcases List.mem_append.mp hr with hr | hr
        · exact hst r hr
        · rcases List.mem_singleton.mp hr with rfl
          exact hsh)
    (by intro r hr; cases hr) file
  rw [← hdata]
  exact hP

/-- The timestamps of the emitted records of one aircraft, in emission
order. -/
def tsOf (h : String) (l : List AC) : List ℚ :=
  (l.filter fun r => decide (r.hex = h)).map AC.t

/-- The run invariant tying the down-sampler map to the output: for every
aircraft, `last_seen` holds exactly the timestamp of its last emitted record,
and its emitted timestamps are at least 60 seconds apart. -/
def ChainInv (st : PState) : Prop :=
  ∀ h : String, alookup h st.lastSeen = (tsOf h st.data).getLast? ∧
    List.Chain' (fun a b => 60 ≤ b - a) (tsOf h st.data)

theorem alookup_cons {β : Type} (k k' : String) (v : β) (l : List (String × β)) :
    alookup k ((k', v) :: l) = if k' = k then some v else alookup k l := rfl

theorem chainInv_step {ws : List Nat} {i : Nat} {now : ℚ} {st st' : PState}
    (hs : stepRec ws i now st = .ok st') (hst : ChainInv st) : ChainInv st' := by
  rcases stepRec_spec hs with ⟨hls, hd⟩ | ⟨ac, hact, -, hgate, hls, hd⟩
  · intro h; rw [hls, hd]; exact hst h
  · intro h
    by_cases hh : ac.hex = h
    · subst hh
      have hts : tsOf ac.hex st'.data = tsOf ac.hex st.data ++ [now] := by
        rw [hd]; unfold tsOf
        rw [List.filter_append, List.map_append]
        simp [hact]
      have hlk : alookup ac.hex st'.lastSeen = some now := by
        rw [hls, alookup_cons, if_pos rfl]
      constructor
      · rw [hlk, hts, List.getLast?_concat]
      · rw [hts, List.chain'_append]
        refine ⟨(hst ac.hex).2, List.chain'_singleton _, ?_⟩
        intro x hx y hy
        rcases List.mem_singleton.mp (by simpa using hy) with rfl
        have hlk0 : alookup ac.hex st.lastSeen = some x := by
          rw [(hst ac.hex).1]; exact hx
        unfold gateEmit at hgate
        rw [hlk0] at hgate
        exact of_decide_eq_true hgate
    · have hts : tsOf h st'.data = tsOf h st.data := by
        rw [hd]; unfold tsOf
        rw [List.filter_append, List.map_append]
        simp [hh]
      have hlk : alookup h st'.lastSeen = alookup h st.lastSeen := by
        rw [hls, alookup_cons, if_neg hh]
      rw [hts, hlk]; exact hst h

/-- Down-sampling across a whole file: for every aircraft, consecutive
emitted timestamps differ by at least 60 seconds. -/
theorem parse_chain (file : Option (List Nat)) (h : String) :
    List.Chain' (fun a b => 60 ≤ b - a) (tsOf h (parse_binary_file file)) := by
  obtain ⟨st, hdata, hP⟩ := parse_inv ChainInv
    (fun a a' ls d hP => hP)
    (fun ws now i st st' hs hst => chainInv_step hs hst)
    (by intro h; exact ⟨rfl, List.chain'_nil⟩) file
  rw [← hdata]
  exact (hP h).2

/-- Modelled from the spec's wording of the altitude decode: take the low 16
bits of `i32[3]`; if bit 15 is set, OR with `0xFFFF0000` and interpret as a
signed 32-bit value; keep the `-123` sentinel, otherwise multiply by 25. -/
def altSpecWords (w : Nat) : Int :=
  let low := u32 w % 65536
  let signed : Int := if Nat.testBit low 15 then toI32 (low + 4294901760) else (low : Int)
  if signed = -123 then -123 else signed * 25

theorem altRaw_spec_aux (n : Nat) (hn : n < 65536) :
    (if 32768 ≤ n then (n : Int) - 65536 else (n : Int)) =
    (if Nat.testBit n 15 then toI32 (n + 4294901760) else (n : Int)) := by
  have h15 : 2 ^ 15 = 32768 := by norm_num
  simp only [Nat.testBit_to_div_mod, decide_eq_true_eq, h15]
  rcases Nat.lt_or_ge n 32768 with hc | hc
  · rw [if_neg (by omega), if_neg (by omega)]
  · rw [if_pos (by omega), if_pos (by omega)]
    unfold toI32 u32
    have hmod : (n + 4294901760) % 4294967296 = n + 4294901760 := by omega
    rw [hmod, if_neg (by omega)]
    push_cast
    omega

theorem altRawOf_eq_specWords (w : Nat) :
    altRawOf w = (if Nat.testBit (u32 w % 65536) 15 then
      toI32 (u32 w % 65536 + 4294901760) else ((u32 w % 65536 : Nat) : Int)) := by
  have h := altRaw_spec_aux (u32 w % 65536) (Nat.mod_lt _ (by norm_num))
  unfold altRawOf
  exact h

/-- The implemented altitude decode agrees with the spec's two-step
sign-extension wording. -/
theorem altOf_eq_altSpecWords (w : Nat) : altOf w = altSpecWords w := by
  unfold altOf altSpecWords
  rw [altRawOf_eq_specWords]

/-- The implemented altitude is always the ground sentinel or a multiple
of 25. -/
theorem altOf_cases (w : Nat) : altOf w = -123 ∨ (25 : Int) ∣ altOf w := by
  unfold altOf
  split
  · exact Or.inl rfl
  · exact Or.inr ⟨altRawOf w, Int.mul_comm _ _⟩

theorem toI32_bounds (w : Nat) : -2147483648 ≤ toI32 w ∧ toI32 w < 2147483648 := by
  have := u32_lt w
  unfold toI32
  split <;> omega

theorem gsRawOf_bounds (w : Nat) : -32768 ≤ gsRawOf w ∧ gsRawOf w ≤ 32767 := by
  have hb := toI32_bounds w
  unfold gsRawOf
  rw [Int.fdiv_eq_ediv _ (by norm_num)]
  omega

/-- The implemented ground speed is absent exactly on the `-1` sentinel and
is otherwise a tenth of a 16-bit signed raw value. -/
theorem gsOf_cases (w : Nat) : (gsOf w = none ↔ gsRawOf w = -1) ∧
    (gsRawOf w ≠ -1 → gsOf w = some ((gsRawOf w : ℚ) / 10)) := by
  unfold gsOf
  constructor
  · split
    · simp_all
    · simp_all
  · intro hne
    rw [if_neg hne]

theorem typeOf_lt (w : Nat) : typeOf w < 32 := Nat.mod_lt _ (by norm_num)

theorem decDigitsCore_len_le (fuel : Nat) :
    ∀ n k, n < 10 ^ (k + 1) → (decDigitsCore fuel n).length ≤ k + 1 := by
  induction fuel with
  | zero => intro n k _; simp [decDigitsCore]
  | succ fuel ih =>
    intro n k hn
    unfold decDigitsCore
    split
    · simp
    · rename_i h10
      cases k with
      | zero => omega
      | succ k =>
        have hdiv : n / 10 < 10 ^ (k + 1) := by
          rw [Nat.div_lt_iff_lt_mul (by norm_num)]
          calc n < 10 ^ (k + 1 + 1) := hn
          _ = 10 ^ (k + 1) * 10 := by ring
        have := ih (n / 10) k hdiv
        simp only [List.length_append, List.length_singleton]
        omega

theorem decDigitsCore_len_ge (fuel : Nat) :
    ∀ n k, n < 10 ^ fuel → 10 ^ k ≤ n → k + 1 ≤ (decDigitsCore fuel n).length := by
  induction fuel with
  | zero =>
    intro n k h hk
    simp only [pow_zero] at h
    have : (1 : Nat) ≤ 10 ^ k := Nat.one_le_pow _ _ (by norm_num)
    omega
  | succ fuel ih =>
    intro n k hf hk
    unfold decDigitsCore
    split
    · rename_i h10
      cases k with
      | zero => simp
      | succ k =>
        exfalso
        have h1 : (10 : Nat) ≤ 10 ^ (k + 1) := by
          calc (10 : Nat) = 10 ^ 1 := (pow_one 10).symm
          _ ≤ 10 ^ (k + 1) := Nat.pow_le_pow_right (by norm_num) (by omega)
        omega
    · rename_i h10
      push_neg at h10
      cases k with
      | zero => simp only [List.length_append, List.length_singleton]; omega
      | succ k =>
        have hdivf : n / 10 < 10 ^ fuel := by
          rw [Nat.div_lt_iff_lt_mul (by norm_num)]
          calc n < 10 ^ (fuel + 1) := hf
          _ = 10 ^ fuel * 10 := by ring
        have hdivk : 10 ^ k ≤ n / 10 := by
          rw [Nat.le_div_iff_mul_le (by norm_num)]
          calc 10 ^ k * 10 = 10 ^ (k + 1) := by ring
          _ ≤ n := hk
        have := ih (n / 10) k hdivf hdivk
        simp only [List.length_append, List.length_singleton]
        omega

/-- The rendered squawk string is 4 characters exactly when the raw value is
at most 9999; larger 16-bit values render to 5 characters. -/
theorem squawkStr_length (n : Nat) (hn : n < 10000000000) :
    4 ≤ (squawkStr n).length ∧ ((squawkStr n).length = 4 ↔ n ≤ 9999) := by
  unfold squawkStr decDigitsOf
  simp only [String.length_mk, List.length_append, List.length_replicate]
  rcases Nat.lt_or_ge n 10000 with hle | hgt
  · have hL : (decDigitsCore 10 n).length ≤ 4 :=
      decDigitsCore_len_le 10 n 3 (by norm_num; omega)
    omega
  · have hL : 5 ≤ (decDigitsCore 10 n).length :=
      decDigitsCore_len_ge 10 n 4 (by norm_num; omega) (by norm_num; omega)
    omega

/-- The four little-endian bytes of a 32-bit word. -/
def bytesOfWord (w : Nat) : List Nat :=
  [byteOfWord w 0, byteOfWord w 1, byteOfWord w 2, byteOfWord w 3]

/-- Value of one lowercase hexadecimal digit character. -/
def hexCharVal (c : Char) : Nat :=
  if 97 ≤ c.toNat then c.toNat - 87 else c.toNat - 48

/-- Modelled from the spec (§3 layout): re-encode a decoded tuple
`(hex, type, lat_raw, lon_raw, alt_raw, gs_raw)` into the 16 record bytes —
the `~` prefix into bit 24 of word 0, the hex digits into its low 24 bits,
the type into bits 27..31, the raw coordinates as two's-complement words,
and the raw ground speed and altitude as the high and low 16-bit halves of
word 3. -/
def encodeRecordSpec (hex : String) (ty : Nat) (latRaw lonRaw altRaw gsRaw : Int) : List Nat :=
  let tilde : Nat := if hex.data.head? = some '~' then 1 else 0
  let ds : List Char := if hex.data.head? = some '~' then hex.data.tail else hex.data
  let hv : Nat := ds.foldl (fun acc c => 16 * acc + hexCharVal c) 0
  let w0 : Nat := hv + 16777216 * tilde + 134217728 * ty
  let w1 : Nat := (latRaw % 4294967296).toNat
  let w2 : Nat := (lonRaw % 4294967296).toNat
  let w3 : Nat := (gsRaw % 65536).toNat * 65536 + (altRaw % 65536).toNat
  bytesOfWord w0 ++ bytesOfWord w1 ++ bytesOfWord w2 ++ bytesOfWord w3

theorem bytesOfWord_u32 (w : Nat) : bytesOfWord (u32 w) = bytesOfWord w := by
  unfold bytesOfWord byteOfWord
  rw [u32_u32]

theorem hexVal_digits (n : Nat) (hn : n < 16777216) :
    List.foldl (fun acc c => 16 * acc + hexCharVal c) 0
      [hexDigitChar (n / 1048576 % 16), hexDigitChar (n / 65536 % 16),
       hexDigitChar (n / 4096 % 16), hexDigitChar (n / 256 % 16),
       hexDigitChar (n / 16 % 16), hexDigitChar (n % 16)] = n := by
  have hv : ∀ d, d < 16 → hexCharVal (hexDigitChar d) = d := by decide
  simp only [List.foldl]
  rw [hv _ (Nat.mod_lt _ (by norm_num)), hv _ (Nat.mod_lt _ (by norm_num)),
    hv _ (Nat.mod_lt _ (by norm_num)), hv _ (Nat.mod_lt _ (by norm_num)),
    hv _ (Nat.mod_lt _ (by norm_num)), hv _ (Nat.mod_lt _ (by norm_num))]
  omega

theorem toI32_emod_toNat (w : Nat) : (toI32 w % 4294967296).toNat = u32 w := by
  have := u32_lt w
  unfold toI32
  split <;> omega

theorem halt_recon (w : Nat) : (altRawOf w % 65536).toNat = u32 w % 65536 := by
  unfold altRawOf
  split_ifs <;> omega

theorem hgs_recon (w : Nat) : (gsRawOf w % 65536).toNat = u32 w / 65536 := by
  have hu := u32_lt w
  unfold gsRawOf
  rw [Int.fdiv_eq_ediv _ (by norm_num)]
  unfold toI32
  split_ifs <;> omega

theorem w3_recon (w : Nat) :
    (gsRawOf w % 65536).toNat * 65536 + (altRawOf w % 65536).toNat = u32 w := by
  rw [halt_recon, hgs_recon]
  omega

/-- Re-encoding the decoded fields per the §3 layout reproduces the original
16 bytes, provided bits 25 and 26 of word 0 are clear (those two bits are
captured by neither the hex string nor the type and are dropped). -/
theorem encode_roundTrip (w0 w1 w2 w3 : Nat)
    (_hpos : ¬ 1073741824 < toI32 w1)
    (_hrange : -90 < (toI32 w1 : ℚ) / 1000000 ∧ (toI32 w1 : ℚ) / 1000000 < 90 ∧
      -180 < (toI32 w2 : ℚ) / 1000000 ∧ (toI32 w2 : ℚ) / 1000000 < 180)
    (hbits : u32 w0 / 33554432 % 4 = 0) :
    encodeRecordSpec (hexStr w0) (typeOf w0) (toI32 w1) (toI32 w2) (altRawOf w3) (gsRawOf w3)
      = bytesOfWord w0 ++ bytesOfWord w1 ++ bytesOfWord w2 ++ bytesOfWord w3 := by
  have hU := u32_lt w0
  have hn : u32 w0 % 16777216 < 16777216 := Nat.mod_lt _ (by norm_num)
  have hnotilde : ∀ d, d < 16 → hexDigitChar d ≠ '~' := by decide
  by_cases hb : u32 w0 / 16777216 % 2 = 1
  · have hdata : (hexStr w0).data = '~' :: [hexDigitChar (u32 w0 % 16777216 / 1048576 % 16),
        hexDigitChar (u32 w0 % 16777216 / 65536 % 16), hexDigitChar (u32 w0 % 16777216 / 4096 % 16),
        hexDigitChar (u32 w0 % 16777216 / 256 % 16), hexDigitChar (u32 w0 % 16777216 / 16 % 16),
        hexDigitChar (u32 w0 % 16777216 % 16)] := by
      simp only [hexStr]
      rw [if_pos hb]
      rfl
    simp only [encodeRecordSpec, hdata, List.head?_cons, List.tail_cons, if_true]
    rw [hexVal_digits _ hn, toI32_emod_toNat, toI32_emod_toNat, w3_recon]
    rw [show u32 w0 % 16777216 + 16777216 * 1 + 134217728 * typeOf w0 = u32 w0 by
      unfold typeOf; omega]
    rw [bytesOfWord_u32, bytesOfWord_u32, bytesOfWord_u32, bytesOfWord_u32]
  · have hdata : (hexStr w0).data = [hexDigitChar (u32 w0 % 16777216 / 1048576 % 16),
        hexDigitChar (u32 w0 % 16777216 / 65536 % 16), hexDigitChar (u32 w0 % 16777216 / 4096 % 16),
        hexDigitChar (u32 w0 % 16777216 / 256 % 16), hexDigitChar (u32 w0 % 16777216 / 16 % 16),
        hexDigitChar (u32 w0 % 16777216 % 16)] := by
      simp only [hexStr]
      rw [if_neg hb]
    have hne : ¬ ([hexDigitChar (u32 w0 % 16777216 / 1048576 % 16),
        hexDigitChar (u32 w0 % 16777216 / 65536 % 16), hexDigitChar (u32 w0 % 16777216 / 4096 % 16),
        hexDigitChar (u32 w0 % 16777216 / 256 % 16), hexDigitChar (u32 w0 % 16777216 / 16 % 16),
        hexDigitChar (u32 w0 % 16777216 % 16)] : List Char).head? = some '~' := by
      simp only [List.head?_cons]
      intro hcontra
      exact hnotilde _ (Nat.mod_lt _ (by norm_num)) (Option.some.inj hcontra)
    simp only [encodeRecordSpec, hdata]
    rw [if_neg hne, if_neg hne]
    rw [hexVal_digits _ hn, toI32_emod_toNat, toI32_emod_toNat, w3_recon]
    rw [show u32 w0 % 16777216 + 16777216 * 0 + 134217728 * typeOf w0 = u32 w0 by
      unfold typeOf; omega]
    rw [bytesOfWord_u32, bytesOfWord_u32, bytesOfWord_u32, bytesOfWord_u32]

/-! Concrete input files used to exercise the decoder.  `703710 = 0x0ABCDE`
is a plain hex with bit 24 clear and type bits 0;
`163840004 = 2500 * 65536 + 4` packs `gs_raw = 2500` and `alt_raw = 4`. -/

/-- A position record: `hex 0x0ABCDE`, `lat_raw 47e6`, `lon_raw 8e6`,
`alt_raw 4`, `gs_raw 2500`. -/
def posRec : List Nat := [703710, 47000000, 8000000, 163840004]

/-- An identity record for `hex 0x0ABCDE`: `i32[1] = 2^30 + 1800` (squawk
1800) and call sign bytes "BAW123  " spanning words 2 and 3. -/
def idRec : List Nat := [703710, 1073743624, 827801922, 538981170]

/-- A frame header with timestamp `t` seconds encoded as `t * 1000` in the
millisecond word and 0 in the high word. -/
def hdr (ms : Nat) : List Nat := [243235997, 0, ms, 0]

/-- Identity in frame 1, position for the same hex in frame 2. -/
def fileIdThenPos : List Nat := hdr 1000000 ++ idRec ++ hdr 2000000 ++ posRec

/-- Identity and position for the same hex in a single frame. -/
def fileSameFrame : List Nat := hdr 1000000 ++ idRec ++ posRec

/-- The same position 30 seconds apart in two frames. -/
def filePersist : List Nat := hdr 1000000 ++ posRec ++ hdr 1030000 ++ posRec

/-- The same position at `t = 1000, 1030, 1061` in three frames. -/
def fileThree : List Nat :=
  hdr 1000000 ++ posRec ++ hdr 1030000 ++ posRec ++ hdr 1061000 ++ posRec

set_option maxRecDepth 8000 in
/-- C1 counterexample: in a file whose first frame holds only an
IdentityRecord (call sign "BAW123  ", squawk "1800") for hex "0abcde" and
whose second frame holds a PositionRecord for the same hex, the position is
emitted (at the second frame's t = 2000) with flight and squawk both null —
the state table was reset at the frame boundary, so the identity did not
carry over as the claim asserts. -/
theorem claim_C1_counterexample :
    (parse_binary_file (some fileIdThenPos)).map AC.t = [2000] ∧
    (parse_binary_file (some fileIdThenPos)).map AC.flight = [none] ∧
    (parse_binary_file (some fileIdThenPos)).map AC.squawk = [none] := by
  refine ⟨?_, ?_, ?_⟩ <;> with_unfolding_all decide

set_option maxRecDepth 8000 in
/-- C1 (amended): only the down-sampler map persists across the frames of a
file; the aircraft state table is reset at the start of every frame, so
identity data attaches only to positions inside the same frame.  Part 1: the
result of processing any non-empty frame list is independent of the incoming
state table.  Part 2: within one frame the identity does attach.  Part 3: the
down-sampler map does persist across frames — a position 30 seconds after an
emission in an earlier frame is suppressed. -/
theorem claim_C1 :
    (∀ (ws : List Nat) (s : Nat) (rest : List Nat)
      (a a' : List (String × (Option String × String))) (ls : List (String × ℚ)) (d : List AC),
      frameLoop ws (s :: rest) ⟨a, ls, d⟩ = frameLoop ws (s :: rest) ⟨a', ls, d⟩) ∧
    parse_binary_file (some fileSameFrame) =
      [{ t := 1000, hex := "0abcde", flight := some "BAW123  ", squawk := some "1800",
         lat := 47, lon := 8, alt := 100, gs := some 250, type := 0 }] ∧
    (parse_binary_file (some filePersist)).map AC.t = [1000] := by
  refine ⟨fun ws s rest a a' ls d => rfl, ?_, ?_⟩ <;> with_unfolding_all decide

set_option maxRecDepth 8000 in
/-- C2: the down-sample gate emits exactly when the hex has no prior entry
or at least 60 seconds have passed since its last emission; consequently,
for every file and every hex, consecutive emitted timestamps differ by at
least 60 seconds; and the three-frame example at t = 1000, 1030, 1061 emits
at t = 1000 and t = 1061 only. -/
theorem claim_C2 :
    (∀ (ls : List (String × ℚ)) (hex : String) (now : ℚ),
      gateEmit ls hex now = true ↔
        (alookup hex ls = none ∨ ∃ t0, alookup hex ls = some t0 ∧ 60 ≤ now - t0)) ∧
    (∀ (file : Option (List Nat)) (h : String),
      List.Chain' (fun a b => 60 ≤ b - a) (tsOf h (parse_binary_file file))) ∧
    (parse_binary_file (some fileThree)).map AC.t = [1000, 1061] := by
  refine ⟨?_, fun file h => parse_chain file h, ?_⟩
  · intro ls hex now
    unfold gateEmit
    cases hlk : alookup hex ls with
    | none => simp
    | some t0 => simp
  · with_unfolding_all decide

/-- Position record rejected for the boundary latitude 90 degrees. -/
def fileRej : List Nat := hdr 1000000 ++ [703710, 90000000, 8000000, 163840004]

/-- Position record accepted just inside the boundary. -/
def fileAcc : List Nat := hdr 1000000 ++ [703710, 89999999, 8000000, 163840004]

/-- The first record emitted from fileThree. -/
def threeRec : AC :=
  { t := 1000, hex := "0abcde", flight := none, squawk := none,
    lat := 47, lon := 8, alt := 100, gs := some 250, type := 0 }

set_option maxRecDepth 8000 in
/-- C3: every emitted record has lat strictly inside (-90, 90) and lon
strictly inside (-180, 180); lat_raw = 90000000 is rejected and
lat_raw = 89999999 is accepted (one record, decoded latitude
89999999/1000000 degrees). -/
theorem claim_C3 :
    (∀ (file : Option (List Nat)), ∀ r ∈ parse_binary_file file,
      -90 < r.lat ∧ r.lat < 90 ∧ -180 < r.lon ∧ r.lon < 180) ∧
    parse_binary_file (some fileRej) = [] ∧
    (parse_binary_file (some fileAcc)).map (fun r => (r.lat.num, r.lat.den))
      = [(89999999, 1000000)] := by
  refine ⟨?_, ?_, ?_⟩
  · intro file r hr
    obtain ⟨h1, h2, h3, h4, -, -⟩ := parse_shape file r hr
    exact ⟨h1, h2, h3, h4⟩
  · with_unfolding_all decide
  · with_unfolding_all decide

set_option maxRecDepth 8000 in
/-- Witness for C3 at a concrete emitted record. -/
theorem claim_C3_witness :
    -90 < threeRec.lat ∧ threeRec.lat < 90 ∧ -180 < threeRec.lon ∧ threeRec.lon < 180 :=
  claim_C3.1 (some fileThree) threeRec (by with_unfolding_all decide)

/-- Position record carrying the ground sentinel: alt_raw = -123
(low 16 bits 65413) and gs_raw = 0. -/
def fileAlt : List Nat := hdr 1000000 ++ [703710, 47000000, 8000000, 65413]

/-- The record emitted from fileAlt. -/
def altSentinelRec : AC :=
  { t := 1000, hex := "0abcde", flight := none, squawk := none,
    lat := 47, lon := 8, alt := -123, gs := some 0, type := 0 }

set_option maxRecDepth 8000 in
/-- C4: the altitude decode equals the spec's two-step sign-extension
description, every emitted alt is the -123 sentinel or a multiple of 25, and
the alt_raw = -123 record emits alt = -123 (not -3075). -/
theorem claim_C4 :
    (∀ w, altOf w = altSpecWords w) ∧
    (∀ (file : Option (List Nat)), ∀ r ∈ parse_binary_file file,
      (∃ w3, w3 < 4294967296 ∧ r.alt = altOf w3) ∧ (r.alt = -123 ∨ (25 : Int) ∣ r.alt)) ∧
    parse_binary_file (some fileAlt) = [altSentinelRec] := by
  refine ⟨altOf_eq_altSpecWords, ?_, ?_⟩
  · intro file r hr
    obtain ⟨-, -, -, -, ⟨w3, hw3, halt, -⟩, -⟩ := parse_shape file r hr
    exact ⟨⟨w3, hw3, halt⟩, halt ▸ altOf_cases w3⟩
  · with_unfolding_all decide

set_option maxRecDepth 8000 in
/-- Witness for C4 at the concrete ground-sentinel record. -/
theorem claim_C4_witness :
    ((∃ w3, w3 < 4294967296 ∧ altSentinelRec.alt = altOf w3) ∧
      (altSentinelRec.alt = -123 ∨ (25 : Int) ∣ altSentinelRec.alt)) :=
  claim_C4.2.1 (some fileAlt) altSentinelRec (by with_unfolding_all decide)

/-- Position record with gs_raw = -2: word 3 is 2^32 - 131072, whose
arithmetic right shift by 16 is -2. -/
def fileGs : List Nat := hdr 1000000 ++ [703710, 47000000, 8000000, 4294836224]

/-- The record emitted from fileGs: its ground speed is -2/10 = -1/5. -/
def gsRec : AC :=
  { t := 1000, hex := "0abcde", flight := none, squawk := none,
    lat := 47, lon := 8, alt := 0, gs := some (-1 / 5), type := 0 }

set_option maxRecDepth 8000 in
/-- C5 counterexample: a record with gs_raw = -2 passes every check and is
emitted with the negative ground speed -1/5, refuting "absent or
non-negative". -/
theorem claim_C5_counterexample :
    parse_binary_file (some fileGs) = [gsRec] ∧ gsRec.gs = some (-1 / 5) ∧ (-1 / 5 : ℚ) < 0 := by
  refine ⟨by with_unfolding_all decide, rfl, by norm_num⟩

set_option maxRecDepth 8000 in
/-- C5 (amended): gs_raw is the arithmetic right shift of the signed word by
16, the speed is absent exactly when gs_raw = -1 and is otherwise gs_raw/10
with gs_raw a 16-bit signed value; an emitted speed need not be
non-negative. -/
theorem claim_C5 :
    (∀ w, gsOf w = none ↔ gsRawOf w = -1) ∧
    (∀ w, gsRawOf w ≠ -1 → gsOf w = some ((gsRawOf w : ℚ) / 10)) ∧
    (∀ w, -32768 ≤ gsRawOf w ∧ gsRawOf w ≤ 32767) ∧
    (∀ (file : Option (List Nat)), ∀ r ∈ parse_binary_file file,
      r.gs = none ∨ ∃ k : Int, k ≠ -1 ∧ -32768 ≤ k ∧ k ≤ 32767 ∧ r.gs = some ((k : ℚ) / 10)) := by
  refine ⟨fun w => (gsOf_cases w).1, fun w => (gsOf_cases w).2, gsRawOf_bounds, ?_⟩
  intro file r hr
  obtain ⟨-, -, -, -, ⟨w3, -, -, hgs⟩, -⟩ := parse_shape file r hr
  rw [hgs]
  unfold gsOf
  split
  · exact Or.inl rfl
  · rename_i hne
    exact Or.inr ⟨gsRawOf w3, hne, (gsRawOf_bounds w3).1, (gsRawOf_bounds w3).2, rfl⟩

set_option maxRecDepth 8000 in
/-- Witness for C5 at the concrete negative-speed record. -/
theorem claim_C5_witness :
    gsRec.gs = none ∨
    ∃ k : Int, k ≠ -1 ∧ -32768 ≤ k ∧ k ≤ 32767 ∧ gsRec.gs = some ((k : ℚ) / 10) :=
  claim_C5.2.2.2 (some fileGs) gsRec (by with_unfolding_all decide)

/-- Position record with all five type bits set: word 0 is
703710 + 31 * 2^27, so the 5-bit type field reads 31. -/
def fileType : List Nat := hdr 1000000 ++ [4161453278, 47000000, 8000000, 163840004]

/-- The record emitted from fileType, with type 31. -/
def typeRec : AC :=
  { t := 1000, hex := "0abcde", flight := none, squawk := none,
    lat := 47, lon := 8, alt := 100, gs := some 250, type := 31 }

set_option maxRecDepth 8000 in
/-- C6 counterexample: the 5-bit type field is stored without any range
check, so a record whose field reads 31 is emitted with type 31, outside
[0, 12]. -/
theorem claim_C6_counterexample :
    parse_binary_file (some fileType) = [typeRec] ∧ ¬ typeRec.type ≤ 12 := by
  refine ⟨by with_unfolding_all decide, by decide⟩

set_option maxRecDepth 8000 in
/-- C6 (amended): the stored type is bits 27..31 of u32[0] — a 5-bit value
in [0, 31]; the code never restricts it to [0, 12] (the 13-entry name table
is not consulted when the numeric code is stored). -/
theorem claim_C6 :
    (∀ w, typeOf w < 32) ∧
    (∀ (file : Option (List Nat)), ∀ r ∈ parse_binary_file file,
      (∃ w0, w0 < 4294967296 ∧ r.type = typeOf w0) ∧ r.type ≤ 31) := by
  refine ⟨typeOf_lt, ?_⟩
  intro file r hr
  obtain ⟨-, -, -, -, -, ⟨w0, hw0, hty⟩⟩ := parse_shape file r hr
  refine ⟨⟨w0, hw0, hty⟩, ?_⟩
  rw [hty]
  have := typeOf_lt w0
  omega

set_option maxRecDepth 8000 in
/-- Witness for C6 at the concrete type-31 record. -/
theorem claim_C6_witness :
    (∃ w0, w0 < 4294967296 ∧ typeRec.type = typeOf w0) ∧ typeRec.type ≤ 31 :=
  claim_C6.2 (some fileType) typeRec (by with_unfolding_all decide)

/-- One frame: an identity record whose i32[1] = 2^30 + 65535 (low 16 bits
65535, above 9999; first byte of word 2 zero, so no call sign is read)
followed by a position for the same hex. -/
def fileSq : List Nat := hdr 1000000 ++ [703710, 1073807359, 0, 0] ++ posRec

set_option maxRecDepth 8000 in
/-- C7 counterexample: the squawk stored for low-16 value 65535 renders as
the 5-character string "65535", not a 4-character one. -/
theorem claim_C7_counterexample :
    (parse_binary_file (some fileSq)).map AC.squawk = [some "65535"] ∧
    ("65535" : String).length = 5 := by
  refine ⟨by with_unfolding_all decide, by decide⟩

/-- C7 (amended): the squawk rendering of the low 16 bits of i32[1] is
zero-padded to at least 4 characters, and has exactly 4 characters if and
only if the value is at most 9999 (values above render to 5 characters). -/
theorem claim_C7 :
    ∀ w : Nat, 4 ≤ (squawkStr (u32 w % 65536)).length ∧
      ((squawkStr (u32 w % 65536)).length = 4 ↔ u32 w % 65536 ≤ 9999) := by
  intro w
  have hlt : u32 w % 65536 < 65536 := Nat.mod_lt _ (by norm_num)
  exact squawkStr_length (u32 w % 65536) (by omega)

theorem parse_noSlices (ws : List Nat) (hsl : slicesOf ws = []) :
    parse_binary_file (some ws) = [] := by
  by_cases h0 : ws.length = 0 <;> simp [parse_binary_file, parseCore, hsl, h0]

theorem parse_error (ws : List Nat) (he : parseCore ws = .error ()) :
    parse_binary_file (some ws) = [] := by
  simp [parse_binary_file, he]

theorem frameLoop_zeros (ws : List Nat) (hlen : ws.length = 3) :
    ∀ ss, (∀ s ∈ ss, s = 0) → frameLoop ws ss ⟨[], [], []⟩ = .ok ⟨[], [], []⟩ := by
  intro ss
  induction ss with
  | nil => intro _; rfl
  | cons s rest ih =>
    intro hall
    have hs0 : s = 0 := hall s (List.mem_cons_self _ _)
    subst hs0
    have h1 : readW ws (0 + 1) = .ok (ws.get ⟨0 + 1, by omega⟩) := by
      unfold readW
      rw [dif_pos (show 0 + 1 < ws.length by omega)]
    have h2 : readW ws (0 + 2) = .ok (ws.get ⟨0 + 2, by omega⟩) := by
      unfold readW
      rw [dif_pos (show 0 + 2 < ws.length by omega)]
    unfold frameLoop
    rw [h1, h2]
    dsimp only
    have hrl : ∀ q : ℚ, recLoop ws q (ws.length + 1) (0 + 4) ⟨[], [], []⟩ = .ok ⟨[], [], []⟩ := by
      intro q
      unfold recLoop
      rw [dif_neg (show ¬ 0 + 4 < ws.length by omega)]
    rw [hrl]
    exact ih (fun x hx => hall x (List.mem_cons_of_mem _ hx))

theorem parse_short (ws : List Nat) (hlen : ws.length < 4) :
    parse_binary_file (some ws) = [] := by
  by_cases h0 : ws.length = 0
  · simp [parse_binary_file, parseCore, h0]
  by_cases hsl : slicesOf ws = []
  · exact parse_noSlices ws hsl
  have hmem : ∀ s ∈ slicesOf ws, s = 0 := by
    intro s hs
    unfold slicesOf at hs
    rw [List.mem_filter] at hs
    obtain ⟨hrange, hcond⟩ := hs
    rw [List.mem_range] at hrange
    have h4 : s % 4 = 0 := by
      have hb := ((Bool.and_eq_true _ _).mp hcond).1
      simpa using hb
    omega
  rcases hc : slicesOf ws with _ | ⟨s, ss⟩
  · exact absurd hc hsl
  have hs0 : s = 0 := hmem s (by rw [hc]; exact List.mem_cons_self _ _)
  subst hs0
  have hforall : ∀ x ∈ (0 :: ss), x = 0 := by
    intro x hx
    exact hmem x (by rw [hc]; exact hx)
  have h123 : ws.length = 1 ∨ ws.length = 2 ∨ ws.length = 3 := by omega
  rcases h123 with h | h | h
  · have h1 : readW ws (0 + 1) = .error () := by
      unfold readW; rw [dif_neg (by omega)]
    have h2 : readW ws (0 + 2) = .error () := by
      unfold readW; rw [dif_neg (by omega)]
    have hfl : frameLoop ws (0 :: ss) ⟨[], [], []⟩ = .error () := by
      unfold frameLoop; rw [h1, h2]
    exact parse_error ws (by simp [parseCore, h0, hc, hfl])
  · have h1 : readW ws (0 + 1) = .ok (ws.get ⟨0 + 1, by omega⟩) := by
      unfold readW; rw [dif_pos (show 0 + 1 < ws.length by omega)]
    have h2 : readW ws (0 + 2) = .error () := by
      unfold readW; rw [dif_neg (by omega)]
    have hfl : frameLoop ws (0 :: ss) ⟨[], [], []⟩ = .error () := by
      unfold frameLoop; rw [h1, h2]
    exact parse_error ws (by simp [parseCore, h0, hc, hfl])
  · have hfl := frameLoop_zeros ws h (0 :: ss) hforall
    have hpc : parseCore ws = .ok [] := by simp [parseCore, h0, hc, hfl]
    simp [parse_binary_file, hpc]

/-- A truncated final record: a full frame header followed by only two of
the four record words. -/
def fileTrunc : List Nat := hdr 1000000 ++ [703710, 47000000]

set_option maxRecDepth 8000 in
/-- C8: parsing a single file is a total function into record lists, and
every failure path produces the empty list: a missing file, a zero-length
file, a file with no sentinel, a file shorter than 16 bytes, any error
raised mid-parse, and a concrete truncated final record. -/
theorem claim_C8 :
    parse_binary_file none = [] ∧
    parse_binary_file (some []) = [] ∧
    (∀ ws : List Nat, slicesOf ws = [] → parse_binary_file (some ws) = []) ∧
    (∀ ws : List Nat, ws.length < 4 → parse_binary_file (some ws) = []) ∧
    (∀ ws : List Nat, parseCore ws = .error () → parse_binary_file (some ws) = []) ∧
    parse_binary_file (some fileTrunc) = [] :=
  ⟨rfl, rfl, parse_noSlices, parse_short, parse_error, by with_unfolding_all decide⟩

set_option maxRecDepth 8000 in
/-- Witness for C8 on three concrete files: one shorter than 16 bytes, one
with no sentinel, and one whose parse raises (a lone sentinel word). -/
theorem claim_C8_witness :
    parse_binary_file (some [5, 6, 7]) = [] ∧
    parse_binary_file (some [1, 2, 3, 4, 5]) = [] ∧
    parse_binary_file (some [243235997]) = [] :=
  ⟨claim_C8.2.2.2.1 [5, 6, 7] (by decide),
   claim_C8.2.2.1 [1, 2, 3, 4, 5] (by decide),
   claim_C8.2.2.2.2.1 [243235997] (by with_unfolding_all rfl)⟩

set_option maxRecDepth 8000 in
/-- C9 counterexample: bit 25 of word 0 is dropped by the decoded tuple, so
for word 0 = 703710 + 2^25 — a PositionRecord passing the coordinate test —
re-encoding does not reproduce the original bytes. -/
theorem claim_C9_counterexample :
    (¬ 1073741824 < toI32 47000000) ∧
    (-90 < (toI32 47000000 : ℚ) / 1000000 ∧ (toI32 47000000 : ℚ) / 1000000 < 90 ∧
      -180 < (toI32 8000000 : ℚ) / 1000000 ∧ (toI32 8000000 : ℚ) / 1000000 < 180) ∧
    encodeRecordSpec (hexStr 34258142) (typeOf 34258142) (toI32 47000000) (toI32 8000000)
        (altRawOf 163840004) (gsRawOf 163840004)
      ≠ bytesOfWord 34258142 ++ bytesOfWord 47000000 ++ bytesOfWord 8000000
          ++ bytesOfWord 163840004 := by
  refine ⟨by decide, ⟨?_, ?_, ?_, ?_⟩, by with_unfolding_all decide⟩ <;> with_unfolding_all decide

/-- C9 (amended): for every PositionRecord passing the coordinate test whose
word-0 bits 25 and 26 are clear, re-encoding the decoded tuple per the §3
layout reproduces the original 16 record bytes; bits 25 and 26 are captured
by neither the hex string nor the type, so the restriction is necessary. -/
theorem claim_C9 (w0 w1 w2 w3 : Nat)
    (hpos : ¬ 1073741824 < toI32 w1)
    (hrange : -90 < (toI32 w1 : ℚ) / 1000000 ∧ (toI32 w1 : ℚ) / 1000000 < 90 ∧
      -180 < (toI32 w2 : ℚ) / 1000000 ∧ (toI32 w2 : ℚ) / 1000000 < 180)
    (hbits : u32 w0 / 33554432 % 4 = 0) :
    encodeRecordSpec (hexStr w0) (typeOf w0) (toI32 w1) (toI32 w2) (altRawOf w3) (gsRawOf w3)
      = bytesOfWord w0 ++ bytesOfWord w1 ++ bytesOfWord w2 ++ bytesOfWord w3 :=
  encode_roundTrip w0 w1 w2 w3 hpos hrange hbits

set_option maxRecDepth 8000 in
/-- Witness for C9 at the concrete in-range position record. -/
theorem claim_C9_witness :
    encodeRecordSpec (hexStr 703710) (typeOf 703710) (toI32 47000000) (toI32 8000000)
        (altRawOf 163840004) (gsRawOf 163840004)
      = bytesOfWord 703710 ++ bytesOfWord 47000000 ++ bytesOfWord 8000000
          ++ bytesOfWord 163840004 :=
  claim_C9 703710 47000000 8000000 163840004 (by decide)
    (by refine ⟨?_, ?_, ?_, ?_⟩ <;> with_unfolding_all decide) (by decide)

/-- An out-of-range position (lat_raw = 95e6) between two in-range positions
for the same hex at t = 1000 and t = 1061. -/
def fileOutRange : List Nat :=
  hdr 1000000 ++ posRec ++ hdr 1030000 ++ [703710, 95000000, 8000000, 163840004]
    ++ hdr 1061000 ++ posRec

set_option maxRecDepth 8000 in
/-- C10: one record step either leaves the down-sampler map and the output
untouched (identity records, out-of-range positions, gated positions), or
appends exactly one emitted record and stamps its hex into the map; and
concretely, an out-of-range position at t = 1030 does not postpone the next
emission, which happens at t = 1061 (61 seconds after the last emission). -/
theorem claim_C10 :
    (∀ (ws : List Nat) (i : Nat) (now : ℚ) (st st' : PState),
      stepRec ws i now st = .ok st' →
      (st'.lastSeen = st.lastSeen ∧ st'.data = st.data) ∨
      ∃ ac : AC, ac.t = now ∧ EmittedShape ac ∧ gateEmit st.lastSeen ac.hex now = true ∧
        st'.lastSeen = (ac.hex, now) :: st.lastSeen ∧ st'.data = st.data ++ [ac]) ∧
    (parse_binary_file (some fileOutRange)).map AC.t = [1000, 1061] :=
  ⟨fun ws i now st st' h => stepRec_spec h, by with_unfolding_all decide⟩

/-- The state before and after the identity step used as the C10 witness. -/
def stIdIn : PState := ⟨[], [], []⟩

/-- The state after processing the identity record of idRec at time 5. -/
def stIdOut : PState := ⟨[("0abcde", (some "BAW123  ", "1800"))], [], []⟩

set_option maxRecDepth 8000 in
/-- Witness for C10: the identity-record step leaves the down-sampler map
and the output unchanged. -/
theorem claim_C10_witness :
    (stIdOut.lastSeen = stIdIn.lastSeen ∧ stIdOut.data = stIdIn.data) ∨
    ∃ ac : AC, ac.t = 5 ∧ EmittedShape ac ∧ gateEmit stIdIn.lastSeen ac.hex 5 = true ∧
      stIdOut.lastSeen = (ac.hex, 5) :: stIdIn.lastSeen ∧ stIdOut.data = stIdIn.data ++ [ac] :=
  claim_C10.1 idRec 0 5 stIdIn stIdOut (by with_unfolding_all rfl)

end Adsb
